import Mathlib

/-!
Verification development for the mbs-manager repository (Go).

The development shallowly embeds the `bedrock` package of the repository:
the `save query` response parser `parseSaveQuery`, the path resolution
`realFilePath` (the static exclude-list variant together with the Go
`path/filepath` lexical functions it calls), the `Server.Backup` sequence
(hold, pause, query with retries, sink, resume, with the deferred
resume-on-error), and `Server.SendRawCommandWaitResponse`.

Go strings are embedded as Lean `String` (a structure over `List Char`;
all the strings involved are ASCII, so byte-wise Go code and char-wise
Lean code agree).  `strings.Split`, `strings.Contains` and
`strconv.ParseInt` are embedded by the executable functions below, which
implement exactly the documented Go semantics (split around each
non-overlapping leftmost instance of a non-empty separator; decimal
parse with optional sign and the int64 range check).  Machine integers
(`int64`, `time.Duration`) are embedded as `Int`; none of the modelled
code paths overflow.

Side effects on the server subprocess are embedded as explicit traces:
`Server.Backup` produces the list of console commands it issues (each
with the timeout it was given), and the effectful outcomes of the
subprocess (hold acknowledgment, query responses, resume acknowledgment,
context cancellation) are inputs drawn from a `BackupEnv`.
-/

/-- Error values: Go `error` results are embedded by their message string,
`none`/`some` standing for `nil`/non-`nil`. -/
abbrev Err := String

/- ## Embedding of the Go standard-library string functions used -/

/-- Tests whether the first list has the second as a prefix of it
(byte-wise `HasPrefix` of Go `strings`). -/
def listStartsWith : List Char → List Char → Bool
  | _, [] => true
  | [], _ :: _ => false
  | c :: cs, p :: ps => c = p && listStartsWith cs ps

/-- Tests whether `sub` occurs as a contiguous run inside the list:
Go `strings.Contains` for a non-empty `sub`. -/
def containsSubstrList (sub : List Char) : List Char → Bool
  | [] => listStartsWith [] sub
  | c :: rest => listStartsWith (c :: rest) sub || containsSubstrList sub rest

/-- Splits around every instance of the single-character separator `sep`:
Go `strings.Split(s, sep)` for a one-byte separator.  `cur` is the
(reversed) chunk accumulated so far. -/
def splitCharAux (sep : Char) : List Char → List Char → List String
  | cur, [] => [String.mk cur.reverse]
  | cur, c :: rest =>
    if c = sep then String.mk cur.reverse :: splitCharAux sep [] rest
    else splitCharAux sep (c :: cur) rest

/-- Splits around every non-overlapping leftmost instance of the two-character
separator `", "`: Go `strings.Split(s, ", ")`. -/
def splitCommaSpaceAux : List Char → List Char → List String
  | cur, [] => [String.mk cur.reverse]
  | cur, [c] => [String.mk (c :: cur).reverse]
  | cur, c :: d :: rest =>
    if c = ',' && d = ' ' then String.mk cur.reverse :: splitCommaSpaceAux [] rest
    else splitCommaSpaceAux (c :: cur) (d :: rest)

/-- Go `strings.Split(s, "\n")`. -/
def goSplitNewline (s : String) : List String := splitCharAux '\n' [] s.data

/-- Go `strings.Split(s, ":")`. -/
def goSplitColon (s : String) : List String := splitCharAux ':' [] s.data

/-- Go `strings.Split(s, ", ")`. -/
def goSplitCommaSpace (s : String) : List String := splitCommaSpaceAux [] s.data

/-- Go `strings.Contains(s, sub)` for non-empty `sub`. -/
def goContains (s sub : String) : Bool := containsSubstrList sub.data s.data

/-- Accumulates the value of a run of decimal digits, failing on any
non-digit character. -/
def decDigits (cs : List Char) : Option Nat :=
  cs.foldl
    (fun acc c =>
      match acc with
      | none => none
      | some n => if '0' ≤ c ∧ c ≤ '9' then some (n * 10 + (c.toNat - 48)) else none)
    (some 0)

/-- Go `strconv.ParseInt(s, 10, 64)`: optional `+`/`-` sign, a non-empty
run of decimal digits, and the int64 range check; `none` embeds a
non-`nil` error. -/
def goParseInt64 (s : String) : Option Int :=
  let signed : Bool × List Char :=
    match s.data with
    | '-' :: rest => (true, rest)
    | '+' :: rest => (false, rest)
    | cs => (false, cs)
  if signed.2 = [] then none
  else
    match decDigits signed.2 with
    | none => none
    | some n =>
      let v : Int := if signed.1 then -(n : Int) else (n : Int)
      if v < -(2 ^ 63) ∨ v > 2 ^ 63 - 1 then none else some v

/- ## parseSaveQuery -/

/-- Source `File` (`main.go`): a file name with its length from the
`save query` response. -/
structure File where
  Name : String
  Length : Int
deriving DecidableEq, Repr

/-- Source loop in `parseSaveQuery` locating `resultLine`: the first line
containing `levelname.txt`, or `""` when none does (the Go zero value of
the variable). -/
def findResultLine : List String → String
  | [] => ""
  | l :: rest => if goContains l "levelname.txt" then l else findResultLine rest

/-- Source loop in `parseSaveQuery` filling `files` from `entries`.
Go allocates `make([]File, len(entries))` (zero values) and fills a
prefix, returning the slice together with the error of the first
malformed entry; the pair returned here is that slice and that error. -/
def parseEntriesAux : List String → List File × Option Err
  | [] => ([], none)
  | e :: rest =>
    match goSplitColon e with
    | a :: b :: _ =>
      match goParseInt64 b with
      | none => (List.replicate (rest.length + 1) ⟨"", 0⟩, some ("invalid entry: " ++ e))
      | some n =>
        let tail := parseEntriesAux rest
        (⟨a, n⟩ :: tail.1, tail.2)
    | _ => (List.replicate (rest.length + 1) ⟨"", 0⟩, some ("invalid entry: " ++ e))

/-- Go `lines[len(lines)-1]`; the default is never used because the split
result is never empty. -/
def getLastLine (ls : List String) : String := ls.getLastD ""

/-- Source `parseSaveQuery` (`main.go`): splits the response into lines,
requires a line containing `levelname.txt`, then parses the last line as
`name:length` entries separated by `", "`. -/
def parseSaveQuery (response : String) : List File × Option Err :=
  let lines := goSplitNewline response
  if lines.length < 1 then ([], some "not enough lines in response")
  else
    let resultLine := findResultLine lines
    if resultLine = "" then ([], some "no results fount in given response")
    else
      parseEntriesAux (goSplitCommaSpace (getLastLine lines))

/- ## Embedding of Go path/filepath (unix rules, empty volume name) -/

/-- Go `path[0] == '/'` (the `rooted` test of `filepath.Clean`), on the
empty string `false`. -/
def isRooted (p : String) : Bool :=
  match p.data with
  | '/' :: _ => true
  | _ => false

/-- Element processing of `filepath.Clean`: empty and `.` elements are
dropped, `..` pops a poppable element (or is kept at the top of a
relative path, or dropped at the root of a rooted one), anything else is
pushed.  `stack` holds the output elements in reverse. -/
def cleanStack (rooted : Bool) : List String → List String → List String
  | stack, [] => stack
  | stack, e :: rest =>
    if e = "" ∨ e = "." then cleanStack rooted stack rest
    else if e = ".." then
      match stack with
      | [] => cleanStack rooted (if rooted then [] else [".."]) rest
      | top :: below =>
        if top = ".." then cleanStack rooted (".." :: top :: below) rest
        else cleanStack rooted below rest
    else cleanStack rooted (e :: stack) rest

/-- Joins path elements with `/` (Go `strings.Join(elems, "/")`). -/
def joinSlash : List String → String
  | [] => ""
  | [e] => e
  | e :: rest => e ++ "/" ++ joinSlash rest

/-- Go `filepath.Clean` (unix): lexical processing of the slash-separated
elements, returning `.` (or `/` when rooted) for an empty result. -/
def Clean (p : String) : String :=
  if p = "" then "."
  else
    let rooted := isRooted p
    let elems := splitCharAux '/' [] p.data
    let out := joinSlash (cleanStack rooted [] elems).reverse
    if rooted then (if out = "" then "/" else "/" ++ out)
    else (if out = "" then "." else out)

/-- Go `filepath.Base` (unix): `.` on the empty path, trailing slashes
stripped, `/` when only separators remain, else the part after the last
separator. -/
def Base (p : String) : String :=
  if p = "" then "."
  else
    let cs := (p.data.reverse.dropWhile (fun c => c = '/')).reverse
    if cs = [] then "/"
    else String.mk (cs.reverse.takeWhile (fun c => c ≠ '/')).reverse

/-- Go `filepath.Dir` (unix): everything up to and including the last
separator, cleaned (`Clean ""` giving `.` when there is no separator). -/
def Dir (p : String) : String :=
  Clean (String.mk ((p.data.reverse.dropWhile (fun c => c ≠ '/')).reverse))

/-- Go `filepath.Join(a, b)`: the elements from the first non-empty one
joined with `/` and cleaned; `""` when both are empty. -/
def Join2 (a b : String) : String :=
  if a ≠ "" then Clean (a ++ "/" ++ b)
  else if b ≠ "" then Clean b
  else ""

/-- Source `nonDBFiles` (`main.go`): the files of a world that are not in
the `db` directory. -/
def nonDBFiles : List String := ["level.dat", "level.dat_old", "levelname.txt"]

/-- Source `realFilePath` (`main.go`, static exclude-list variant): keeps
the reported path of the `nonDBFiles` and inserts a `db` directory
between directory and base name for every other file. -/
def realFilePath (file : File) : String :=
  let base := Base file.Name
  let dir := Dir file.Name
  let nonDBFile := nonDBFiles.any (fun f => base = f)
  let dir2 := if ¬nonDBFile then Join2 dir "db" else dir
  Join2 dir2 base

/- ## The Server.Backup sequence -/

/-- Go `time.Second` in nanoseconds (`time.Duration` is an `int64` count
of nanoseconds, embedded as `Int`). -/
def timeSecond : Int := 1000000000

/-- Go `time.Minute` in nanoseconds. -/
def timeMinute : Int := 60 * timeSecond

/-- Timeout of the deferred recovery resume in `Server.Backup`
(`time.Duration(5) * time.Minute` at the deferred call site). -/
def failureResumeTimeout : Int := 5 * timeMinute

/-- Source `BackupOptions`: the sink, the per-command timeout and the
pause after the hold.  The `Backupper` interface value is embedded as an
optional function from the file list to an optional error, `none`
standing for a `nil` interface. -/
structure BackupOptions where
  Backupper : Option (List File → Option Err)
  CommandTimeout : Int
  SavePause : Int

/-- Source `defaultOptions`: a `nil` `Backupper` is an error, and a zero
`CommandTimeout` or `SavePause` is replaced by 3 seconds. -/
def defaultOptions (opts : BackupOptions) : Except Err BackupOptions :=
  match opts.Backupper with
  | none => .error "Backupper is mandatory but is nil"
  | some _ =>
    .ok { opts with
          CommandTimeout :=
            if opts.CommandTimeout = 0 then 3 * timeSecond else opts.CommandTimeout,
          SavePause :=
            if opts.SavePause = 0 then 3 * timeSecond else opts.SavePause }

/-- Console commands issued by the backup sequence. -/
inductive Cmd
  | hold
  | query
  | resume
deriving DecidableEq, Repr

/-- Error value of `ctx.Err()` for a canceled context. -/
def ctxCanceledErr : Err := "context canceled"

/-- Effectful outcomes of the server subprocess during one run of
`Server.Backup`: whether `saveHold` fails, whether the backing context is
canceled during the `SavePause` wait, the outcome of each `saveQuery`
attempt, and whether the normal-path `saveResume` fails.  The error of
the deferred recovery resume is discarded by the source, so it needs no
outcome here. -/
structure BackupEnv where
  holdErr : Option Err
  ctxCanceledDuringPause : Bool
  queryResult : Nat → Except Err String
  resumeErr : Option Err

/-- Source query retry loop of `Server.Backup` (`for retry := 3; ...`):
up to three `saveQuery` attempts, stopping at the first success; the pair
is the final `(output, err)` together with the number of attempts made. -/
def queryLoop (env : BackupEnv) : Except Err String × Nat :=
  match env.queryResult 0 with
  | .ok o => (.ok o, 1)
  | .error _ =>
    match env.queryResult 1 with
    | .ok o => (.ok o, 2)
    | .error _ =>
      match env.queryResult 2 with
      | .ok o => (.ok o, 3)
      | .error e => (.error e, 3)

/-- Source deferred closure of `Server.Backup`: at return, when the local
`err` variable is non-`nil`, one recovery `save resume` with a 5-minute
timeout is issued (its own error being discarded). -/
def deferredResume (trace : List (Cmd × Int)) (errVar : Option Err) : List (Cmd × Int) :=
  match errVar with
  | some _ => trace ++ [(Cmd.resume, failureResumeTimeout)]
  | none => trace

/-- Source `Server.Backup`: defaults the options, issues `save hold`,
waits out `SavePause` (watching the context), runs the query retry loop,
parses the response, calls the sink, and issues the normal `save resume`;
the deferred closure adds the recovery resume on every path on which the
local `err` variable ended non-`nil`.  The result is the trace of
commands issued, each with the timeout passed to it, together with the
returned error.  On the context-cancellation path the source returns
`ctx.Err()` without assigning the local `err` variable (still `nil` from
the hold), so the deferred resume does not fire there. -/
def BackupRun (env : BackupEnv) (opts : BackupOptions) : List (Cmd × Int) × Option Err :=
  match defaultOptions opts with
  | .error e => ([], some e)
  | .ok o =>
    let t1 : List (Cmd × Int) := [(Cmd.hold, o.CommandTimeout)]
    match env.holdErr with
    | some e => (deferredResume t1 (some e), some e)
    | none =>
      if env.ctxCanceledDuringPause then
        (deferredResume t1 none, some ctxCanceledErr)
      else
        match o.Backupper with
        | none => ([], none)
        | some b =>
          match queryLoop env with
          | (.error e, k) =>
            let t2 := t1 ++ List.replicate k (Cmd.query, o.CommandTimeout)
            (deferredResume t2 (some e), some e)
          | (.ok out, k) =>
            let t2 := t1 ++ List.replicate k (Cmd.query, o.CommandTimeout)
            match parseSaveQuery out with
            | (_, some e) => (deferredResume t2 (some e), some e)
            | (files, none) =>
              match b files with
              | some e => (deferredResume t2 (some e), some e)
              | none =>
                let t3 := t2 ++ [(Cmd.resume, o.CommandTimeout)]
                match env.resumeErr with
                | some e => (deferredResume t3 (some e), some e)
                | none => (t3, none)

/- ## Server.SendRawCommandWaitResponse -/

/-- Console side effects of one `SendRawCommandWaitResponse` call. -/
inductive ConsoleEvent
  | subscribe
  | send (cmd : String)
  | unsubscribe
  | closeChan
deriving DecidableEq, Repr

/-- Source wait loop of `SendRawCommandWaitResponse`: accumulates received
messages (joined by newlines) until the compiled response pattern rmatch
the accumulated output; `msgs` lists the messages delivered before the
context cancellation is observed, at which point the loop returns
`ctx.Err()`.  A context canceled before the call delivers no messages
(`msgs = []`). -/
def awaitLoop (rmatch : String → Bool) : String → List String → Except Err String
  | _, [] => .error ctxCanceledErr
  | output, m :: rest =>
    let output2 := if output = "" then m else output ++ "\n" ++ m
    if rmatch output2 then .ok output2 else awaitLoop rmatch output2 rest

/-- Source `Server.SendRawCommandWaitResponse`: compiles the pattern
(`regexOk` embeds whether `regexp.Compile` succeeds; `rmatch` embeds the
compiled `MatchString`), registers a subscription, sends the raw command
unconditionally, then waits in the loop; the deferred `Unsubscribe` and
channel close run on every return from the waiting part.  The result is
the trace of console side effects together with the `(output, err)`
outcome. -/
def SendRawCommandWaitResponse (regexOk : Bool) (rmatch : String → Bool)
    (msgs : List String) (rawCommand : String) :
    List ConsoleEvent × Except Err String :=
  if regexOk then
    (ConsoleEvent.subscribe ::
     ConsoleEvent.send rawCommand ::
     ConsoleEvent.unsubscribe ::
     [ConsoleEvent.closeChan],
     awaitLoop rmatch "" msgs)
  else
    ([], .error "error parsing regexp")

/- ## Helper lemmas -/

theorem splitCharAux_ne_nil (sep : Char) (l : List Char) :
    ∀ cur, splitCharAux sep cur l ≠ [] := by
  induction l with
  | nil => intro cur; simp [splitCharAux]
  | cons c rest ih =>
    intro cur
    unfold splitCharAux
    by_cases h : c = sep
    · simp [h]
    · simpa [h] using ih (c :: cur)

theorem eq_empty_of_data_eq_nil (s : String) (h : s.data = []) : s = "" := by
  have h2 : String.mk s.data = String.mk [] := by rw [h]
  exact h2

theorem invalid_entry_ne (e : String) :
    ("invalid entry: " ++ e : String) ≠ "not enough lines in response" := by
  intro h
  have h2 := congrArg String.data h
  rw [String.data_append] at h2
  rw [show ("invalid entry: " : String).data = 'i' :: "nvalid entry: ".data from rfl] at h2
  rw [show ("not enough lines in response" : String).data =
        'n' :: "ot enough lines in response".data from rfl] at h2
  rw [List.cons_append] at h2
  injection h2 with h3 h4
  exact absurd h3 (by decide)

theorem parseEntriesAux_err_shape (es : List String) :
    (parseEntriesAux es).2 = none ∨
      ∃ e, (parseEntriesAux es).2 = some ("invalid entry: " ++ e) := by
  induction es with
  | nil => left; rfl
  | cons e rest ih =>
    rcases hs : goSplitColon e with _ | ⟨a, _ | ⟨b, t2⟩⟩
    · right; exact ⟨e, by simp [parseEntriesAux, hs]⟩
    · right; exact ⟨e, by simp [parseEntriesAux, hs]⟩
    · rcases hn : goParseInt64 b with _ | n
      · right; exact ⟨e, by simp [parseEntriesAux, hs, hn]⟩
      · simpa [parseEntriesAux, hs, hn] using ih

/-- Entry malformedness of the source loop: the entry splits on `:` into
fewer than two fields, or its second field does not parse as an int64. -/
def badEntry (e : String) : Bool :=
  match goSplitColon e with
  | _ :: b :: _ => (goParseInt64 b).isNone
  | _ => true

theorem parseEntriesAux_isSome_of_bad (es : List String)
    (h : ∃ e ∈ es, badEntry e = true) : (parseEntriesAux es).2.isSome = true := by
  induction es with
  | nil => simp at h
  | cons e rest ih =>
    rcases hs : goSplitColon e with _ | ⟨a, _ | ⟨b, t2⟩⟩
    · simp [parseEntriesAux, hs]
    · simp [parseEntriesAux, hs]
    · rcases hn : goParseInt64 b with _ | n
      · simp [parseEntriesAux, hs, hn]
      · have hrest : ∃ x ∈ rest, badEntry x = true := by
          rcases h with ⟨x, hx, hbad⟩
          rcases List.mem_cons.mp hx with rfl | hx2
          · exfalso
            unfold badEntry at hbad
            rw [hs] at hbad
            simp [hn] at hbad
          · exact ⟨x, hx2, hbad⟩
        simpa [parseEntriesAux, hs, hn] using ih hrest

theorem findResultLine_eq_empty (ls : List String)
    (h : ∀ l ∈ ls, goContains l "levelname.txt" = false) :
    findResultLine ls = "" := by
  induction ls with
  | nil => rfl
  | cons l rest ih =>
    have hl := h l (List.mem_cons_self l rest)
    simp [findResultLine, hl]
    exact ih fun x hx => h x (List.mem_cons_of_mem l hx)

theorem findResultLine_ne_empty (ls : List String)
    (h : ∃ l ∈ ls, goContains l "levelname.txt" = true) :
    findResultLine ls ≠ "" := by
  induction ls with
  | nil => simp at h
  | cons l rest ih =>
    by_cases hc : goContains l "levelname.txt" = true
    · have hl : l ≠ "" := by
        intro h0
        rw [h0] at hc
        exact absurd hc (by decide)
      simpa [findResultLine, hc] using hl
    · have hrest : ∃ x ∈ rest, goContains x "levelname.txt" = true := by
        rcases h with ⟨x, hx, hcx⟩
        rcases List.mem_cons.mp hx with rfl | hx2
        · exact absurd hcx hc
        · exact ⟨x, hx2, hcx⟩
      simpa [findResultLine, hc] using ih hrest

/- ## Claims about parseSaveQuery -/

/-- C10: for every input string, the `not enough lines in response` branch
of `parseSaveQuery` is unreachable: splitting a string on newlines always
yields at least one element, so the length-below-one check never holds and
that error value is never returned. -/
theorem parseSaveQuery_notEnoughLines_unreachable (r : String) :
    1 ≤ (goSplitNewline r).length ∧
      (parseSaveQuery r).2 ≠ some "not enough lines in response" := by
  have hne : goSplitNewline r ≠ [] := splitCharAux_ne_nil '\n' r.data []
  have hlen : ¬ (goSplitNewline r).length < 1 := by
    have := List.length_pos.mpr hne
    omega
  refine ⟨by omega, ?_⟩
  by_cases hres : findResultLine (goSplitNewline r) = ""
  · simp only [parseSaveQuery, if_neg hlen, if_pos hres]
    intro h
    injection h with h2
    exact absurd h2 (by decide)
  · simp only [parseSaveQuery, if_neg hlen, if_neg hres]
    rcases parseEntriesAux_err_shape
        (goSplitCommaSpace (getLastLine (goSplitNewline r))) with h0 | ⟨e, he⟩
    · rw [h0]; simp
    · rw [he]
      intro h
      injection h with h2
      exact invalid_entry_ne e h2

/-- C6: `parseSaveQuery` returns a parse error (never a success with a
partial result) whenever the response lacks a line containing the
`levelname.txt` marker, or whenever an entry on the listing line is
malformed: missing `:` or a non-integer length such as `x:notanumber`. -/
theorem parseSaveQuery_error_on_bad_input (r : String)
    (h : (∀ l ∈ goSplitNewline r, goContains l "levelname.txt" = false) ∨
         (∃ e ∈ goSplitCommaSpace (getLastLine (goSplitNewline r)), badEntry e = true)) :
    (parseSaveQuery r).2.isSome = true := by
  by_cases hlen : (goSplitNewline r).length < 1
  · simp only [parseSaveQuery, if_pos hlen]
    rfl
  · by_cases hres : findResultLine (goSplitNewline r) = ""
    · simp only [parseSaveQuery, if_neg hlen, if_pos hres]
      rfl
    · rcases h with hmark | hbad
      · exact absurd (findResultLine_eq_empty _ hmark) hres
      · simp only [parseSaveQuery, if_neg hlen, if_neg hres]
        exact parseEntriesAux_isSome_of_bad _ hbad

/-- Witness for C6: a response with a non-integer length entry, and a
response without the marker line, are both rejected. -/
theorem parseSaveQuery_error_on_bad_input_witness :
    (parseSaveQuery "x levelname.txt\nx:notanumber").2.isSome = true ∧
      (parseSaveQuery "no marker here\na:10").2.isSome = true :=
  ⟨parseSaveQuery_error_on_bad_input _ (Or.inr (by decide)),
   parseSaveQuery_error_on_bad_input _ (Or.inl (by decide))⟩

/-- C5: for every valid query response whose last line is the listing
`a:10, b:20, c:30` (`name:length` pairs separated by `", "`) and which
contains the `levelname.txt` marker on some line, `parseSaveQuery` returns
exactly the ordered listing `[{a,10},{b,20},{c,30}]`. -/
theorem parseSaveQuery_ordered_listing (r : String) (pre : List String)
    (hsplit : goSplitNewline r = pre ++ ["a:10, b:20, c:30"])
    (hmark : ∃ l ∈ pre ++ ["a:10, b:20, c:30"],
        goContains l "levelname.txt" = true) :
    parseSaveQuery r = ([⟨"a", 10⟩, ⟨"b", 20⟩, ⟨"c", 30⟩], none) := by
  have hlen : ¬ (goSplitNewline r).length < 1 := by
    rw [hsplit]; simp
  have hres : findResultLine (goSplitNewline r) ≠ "" := by
    rw [hsplit]; exact findResultLine_ne_empty _ hmark
  simp only [parseSaveQuery, if_neg hlen, if_neg hres]
  rw [hsplit]
  rw [show getLastLine (pre ++ ["a:10, b:20, c:30"]) = "a:10, b:20, c:30" from
        List.getLastD_concat _ _ _]
  decide

/-- Witness for C5 at a concrete two-line response. -/
theorem parseSaveQuery_ordered_listing_witness :
    parseSaveQuery "x levelname.txt\na:10, b:20, c:30" =
      ([⟨"a", 10⟩, ⟨"b", 20⟩, ⟨"c", 30⟩], none) :=
  parseSaveQuery_ordered_listing _ ["x levelname.txt"] (by decide) (by decide)

/- ## Claims about realFilePath -/

theorem dropWhile_eq_self_of_all_false (p : Char → Bool) (l : List Char)
    (h : ∀ c ∈ l, p c = false) : l.dropWhile p = l := by
  cases l with
  | nil => rfl
  | cons a t => simp [List.dropWhile, h a (List.mem_cons_self a t)]

theorem splitCharAux_no_sep (sep : Char) (l : List Char) (h : ∀ c ∈ l, c ≠ sep) :
    ∀ cur, splitCharAux sep cur l = [String.mk (cur.reverse ++ l)] := by
  induction l with
  | nil => intro cur; simp [splitCharAux]
  | cons c rest ih =>
    intro cur
    have hc : c ≠ sep := h c (List.mem_cons_self c rest)
    unfold splitCharAux
    rw [if_neg hc]
    rw [ih (fun x hx => h x (List.mem_cons_of_mem c hx)) (c :: cur)]
    simp

theorem Base_no_slash (name : String) (h1 : name ≠ "")
    (h4 : ∀ c ∈ name.data, c ≠ '/') : Base name = name := by
  have hdata : name.data ≠ [] := fun h0 => h1 (eq_empty_of_data_eq_nil name h0)
  have hdw : name.data.reverse.dropWhile (fun c => c = '/') = name.data.reverse :=
    dropWhile_eq_self_of_all_false _ _ (by
      intro c hc
      simp [h4 c (List.mem_reverse.mp hc)])
  have htw : name.data.reverse.takeWhile (fun c => c ≠ '/') = name.data.reverse :=
    List.takeWhile_eq_self_iff.mpr (by
      intro c hc
      simp [h4 c (List.mem_reverse.mp hc)])
  simp only [Base, if_neg h1, hdw, List.reverse_reverse]
  rw [if_neg hdata, htw, List.reverse_reverse]

theorem Dir_no_slash (name : String) (h4 : ∀ c ∈ name.data, c ≠ '/') :
    Dir name = "." := by
  have hdw : name.data.reverse.dropWhile (fun c => c ≠ '/') = [] :=
    List.dropWhile_eq_nil_iff.mpr (by
      intro c hc
      simp [h4 c (List.mem_reverse.mp hc)])
  simp only [Dir, hdw, List.reverse_nil]
  rfl

theorem Join2_db (name : String) (h1 : name ≠ "") (h2 : name ≠ ".")
    (h3 : name ≠ "..") (h4 : ∀ c ∈ name.data, c ≠ '/') :
    Join2 "db" name = "db/" ++ name := by
  have hdata : ("db" ++ "/" ++ name).data = 'd' :: 'b' :: '/' :: name.data := by
    rw [show ("db" ++ "/" : String) = "db/" from rfl, String.data_append]
    rfl
  have hp : ("db" ++ "/" ++ name) ≠ "" := by
    intro h0
    have h5 := congrArg String.data h0
    rw [hdata] at h5
    simp at h5
  have hroot : isRooted ("db" ++ "/" ++ name) = false := by
    simp only [isRooted, hdata]
    rfl
  have helems : splitCharAux '/' [] (("db" ++ "/" ++ name).data) =
      "db" :: splitCharAux '/' [] name.data := by
    rw [hdata]
    rfl
  have hsplit : splitCharAux '/' [] name.data = [name] := by
    rw [splitCharAux_no_sep '/' name.data h4 []]
    rfl
  have hstack : cleanStack false [] ["db", name] = [name, "db"] := by
    have d1 : ¬ (("db" : String) = "" ∨ ("db" : String) = ".") := by decide
    have d2 : ("db" : String) ≠ ".." := by decide
    have d3 : ¬ (name = "" ∨ name = ".") := by
      rintro (h0 | h0)
      exacts [h1 h0, h2 h0]
    simp only [cleanStack, if_neg d1, if_neg d2, if_neg d3, if_neg h3]
  have hjoin : joinSlash ["db", name] = "db/" ++ name := rfl
  have hout : ("db/" ++ name : String) ≠ "" := by
    intro h0
    have h5 := congrArg String.data h0
    rw [show ("db/" ++ name : String).data = 'd' :: 'b' :: '/' :: name.data from
          by rw [String.data_append]; rfl] at h5
    simp at h5
  unfold Join2
  rw [if_pos (show ("db" : String) ≠ "" by decide)]
  simp only [Clean, if_neg hp, hroot, helems, hsplit, hstack]
  simp [hjoin, hout]

/-- C7: under the static exclude-list strategy, `realFilePath` maps a
`File` whose (top-level) reported name is one of the `nonDBFiles` to that
name unchanged, and maps every other such `File` under a `db` directory
inserted between its directory and its base name. -/
theorem realFilePath_toplevel (name : String) (len : Int)
    (h1 : name ≠ "") (h2 : name ≠ ".") (h3 : name ≠ "..")
    (h4 : ∀ c ∈ name.data, c ≠ '/') :
    (name ∈ nonDBFiles → realFilePath ⟨name, len⟩ = name) ∧
    (name ∉ nonDBFiles → realFilePath ⟨name, len⟩ = "db/" ++ name) := by
  constructor
  · intro hm
    fin_cases hm <;> rfl
  · intro hm
    have hbase : Base name = name := Base_no_slash name h1 h4
    have hdir : Dir name = "." := Dir_no_slash name h4
    have hany : nonDBFiles.any (fun f => name = f) = false := by
      simp only [nonDBFiles, List.mem_cons, List.not_mem_nil, or_false, not_or] at hm
      simp [nonDBFiles, hm.1, hm.2.1, hm.2.2]
    simp only [realFilePath, hbase, hdir, hany]
    exact Join2_db name h1 h2 h3 h4

/-- Witness for C7: `CURRENT` resolves under `db/` while `level.dat`
resolves to its top-level path. -/
theorem realFilePath_toplevel_witness :
    realFilePath ⟨"CURRENT", 16⟩ = "db/CURRENT" ∧
      realFilePath ⟨"level.dat", 100⟩ = "level.dat" :=
  ⟨(realFilePath_toplevel "CURRENT" 16 (by decide) (by decide) (by decide)
      (by decide)).2 (by decide),
   (realFilePath_toplevel "level.dat" 100 (by decide) (by decide) (by decide)
      (by decide)).1 (by decide)⟩

/- ## Claims about the Server.Backup sequence -/

theorem filter_resume_replicate (k : Nat) (t : Int) :
    (List.replicate k (Cmd.query, t)).filter (fun c => c.1 = Cmd.resume) = [] := by
  induction k with
  | zero => rfl
  | succ n ih => simp [List.replicate_succ, ih]

/-- Sink that always succeeds, for concrete runs. -/
def sinkOk : List File → Option Err := fun _ => none

/-- Sink that always fails, for concrete runs. -/
def sinkFail : List File → Option Err := fun _ => some "disk full"

/-- Environment in which every subprocess interaction succeeds. -/
def envAllOk : BackupEnv := ⟨none, false, fun _ => .ok "levelname.txt:5", none⟩

/-- Environment in which the hold step fails. -/
def envHoldFail : BackupEnv := ⟨some "hold timeout", false, fun _ => .error "x", none⟩

/-- Environment in which everything succeeds except the normal-path resume. -/
def envResumeFail : BackupEnv :=
  ⟨none, false, fun _ => .ok "levelname.txt:5", some "resume timeout"⟩

/-- Options with small non-zero timeouts and the succeeding sink. -/
def optsSmall : BackupOptions := ⟨some sinkOk, 7, 9⟩

/-- Options with small non-zero timeouts and the failing sink. -/
def optsSinkFail : BackupOptions := ⟨some sinkFail, 7, 9⟩

/-- Options with a CommandTimeout of ten minutes. -/
def optsBig : BackupOptions := ⟨some sinkOk, 10 * timeMinute, 1⟩

/-- Options with zero timeouts (so the three-second defaults apply). -/
def optsZero : BackupOptions := ⟨some sinkOk, 0, 0⟩

/-- Result of defaulting `optsZero`. -/
def optsZeroD : BackupOptions := ⟨some sinkOk, 3 * timeSecond, 3 * timeSecond⟩

/-- C1: when the sink's `Backup` call fails during `Server.Backup`, the run
issues exactly one resume command (the deferred recovery one, after the
hold and the query attempts), and the error returned to the caller is the
sink's error; the deferred resume's own error is discarded by the source,
so even a failing resume cannot replace the sink's error. -/
theorem backup_sink_failure (env : BackupEnv) (opts o : BackupOptions)
    (b : List File → Option Err) (out : String) (k : Nat)
    (files : List File) (e : Err)
    (hd : defaultOptions opts = .ok o)
    (hb : o.Backupper = some b)
    (hh : env.holdErr = none)
    (hc : env.ctxCanceledDuringPause = false)
    (hq : queryLoop env = (.ok out, k))
    (hp : parseSaveQuery out = (files, none))
    (hs : b files = some e) :
    BackupRun env opts =
      ([(Cmd.hold, o.CommandTimeout)] ++
        List.replicate k (Cmd.query, o.CommandTimeout) ++
        [(Cmd.resume, failureResumeTimeout)], some e) ∧
    ((BackupRun env opts).1.filter (fun c => c.1 = Cmd.resume)).length = 1 := by
  have hrun : BackupRun env opts =
      ([(Cmd.hold, o.CommandTimeout)] ++
        List.replicate k (Cmd.query, o.CommandTimeout) ++
        [(Cmd.resume, failureResumeTimeout)], some e) := by
    simp [BackupRun, hd, hh, hc, hb, hq, hp, hs, deferredResume]
  refine ⟨hrun, ?_⟩
  rw [hrun]
  simp [List.filter_append, filter_resume_replicate]

/-- Witness for C1: a failing sink after one successful query attempt. -/
theorem backup_sink_failure_witness :
    BackupRun envAllOk optsSinkFail =
      ([(Cmd.hold, optsSinkFail.CommandTimeout)] ++
        List.replicate 1 (Cmd.query, optsSinkFail.CommandTimeout) ++
        [(Cmd.resume, failureResumeTimeout)], some "disk full") ∧
    ((BackupRun envAllOk optsSinkFail).1.filter
        (fun c => c.1 = Cmd.resume)).length = 1 :=
  backup_sink_failure envAllOk optsSinkFail optsSinkFail sinkFail
    "levelname.txt:5" 1 [⟨"levelname.txt", 5⟩] "disk full"
    rfl rfl rfl rfl rfl (by decide) rfl

/-- Counterexample for C2 as stated: with a failing hold step, the run
still issues a resume command (the deferred recovery always fires when
the local error is non-nil), so the claim that no resume is issued by
that call is false on the code. -/
theorem backup_hold_failure_counterexample :
    envHoldFail.holdErr.isSome = true ∧
      (BackupRun envHoldFail optsZero).1.filter (fun c => c.1 = Cmd.resume) =
        [(Cmd.resume, failureResumeTimeout)] := by
  decide

/-- C2 amended: when the hold step of `Server.Backup` fails, Backup aborts
returning the hold error, and the deferred recovery issues exactly one
resume command, with the 5-minute recovery timeout. -/
theorem backup_hold_failure_resumes (env : BackupEnv) (opts o : BackupOptions)
    (e : Err) (hd : defaultOptions opts = .ok o) (hh : env.holdErr = some e) :
    BackupRun env opts =
      ([(Cmd.hold, o.CommandTimeout), (Cmd.resume, failureResumeTimeout)],
        some e) := by
  simp [BackupRun, hd, hh, deferredResume]

/-- Witness for the amended C2 at a concrete failing-hold run. -/
theorem backup_hold_failure_resumes_witness :
    BackupRun envHoldFail optsZero =
      ([(Cmd.hold, optsZeroD.CommandTimeout), (Cmd.resume, failureResumeTimeout)],
        some "hold timeout") :=
  backup_hold_failure_resumes envHoldFail optsZero optsZeroD "hold timeout" rfl rfl

/-- Environment in which the context is canceled during the pause. -/
def envCtxCancel : BackupEnv := ⟨none, true, fun _ => .error "x", none⟩

/-- Counterexample for C3 as stated: with valid options and a sink that
always succeeds, a run whose normal-path resume fails issues two resume
commands (the normal one, then the deferred recovery), not exactly one;
moreover a run whose hold fails issues no query at all, and a run whose
context is canceled during the pause issues no resume at all. -/
theorem backup_two_resumes_counterexample :
    ((BackupRun envResumeFail optsZero).1.filter
        (fun c => c.1 = Cmd.resume)).length = 2 ∧
      ((BackupRun envHoldFail optsZero).1.filter
        (fun c => c.1 = Cmd.query)).length = 0 ∧
      ((BackupRun envCtxCancel optsZero).1.filter
        (fun c => c.1 = Cmd.resume)).length = 0 := by
  decide

theorem backup_after_query_ok (env : BackupEnv) (opts o : BackupOptions)
    (b : List File → Option Err) (out : String) (k : Nat)
    (hd : defaultOptions opts = .ok o) (hb : o.Backupper = some b)
    (hsink : ∀ fs, b fs = none)
    (hh : env.holdErr = none) (hc : env.ctxCanceledDuringPause = false)
    (hr : env.resumeErr = none)
    (hq : queryLoop env = (.ok out, k)) :
    (BackupRun env opts).1.map Prod.fst =
      Cmd.hold :: (List.replicate k Cmd.query ++ [Cmd.resume]) := by
  rcases hp : parseSaveQuery out with ⟨fs, _ | pe⟩
  · simp [BackupRun, hd, hb, hh, hc, hr, hq, hp, hsink, deferredResume,
      List.map_append, List.map_replicate]
  · simp [BackupRun, hd, hb, hh, hc, hq, hp, deferredResume,
      List.map_append, List.map_replicate]

/-- C3 amended: for every run of `Server.Backup` with accepted options, a
sink that always succeeds, a successful hold, an uncanceled pause, and a
successful normal-path resume, the sequence issues exactly one hold
command, between one and three query commands, and exactly one resume
command, in that order. -/
theorem backup_command_sequence (env : BackupEnv) (opts o : BackupOptions)
    (b : List File → Option Err)
    (hd : defaultOptions opts = .ok o) (hb : o.Backupper = some b)
    (hsink : ∀ fs, b fs = none)
    (hh : env.holdErr = none) (hc : env.ctxCanceledDuringPause = false)
    (hr : env.resumeErr = none) :
    ∃ k, 1 ≤ k ∧ k ≤ 3 ∧
      (BackupRun env opts).1.map Prod.fst =
        Cmd.hold :: (List.replicate k Cmd.query ++ [Cmd.resume]) := by
  rcases h0 : env.queryResult 0 with e0 | o0
  · rcases h1 : env.queryResult 1 with e1 | o1
    · rcases h2 : env.queryResult 2 with e2 | o2
      · refine ⟨3, by omega, by omega, ?_⟩
        have hq : queryLoop env = (.error e2, 3) := by simp [queryLoop, h0, h1, h2]
        simp [BackupRun, hd, hb, hh, hc, hq, deferredResume,
          List.map_append, List.map_replicate]
      · exact ⟨3, by omega, by omega,
          backup_after_query_ok env opts o b o2 3 hd hb hsink hh hc hr
            (by simp [queryLoop, h0, h1, h2])⟩
    · exact ⟨2, by omega, by omega,
        backup_after_query_ok env opts o b o1 2 hd hb hsink hh hc hr
          (by simp [queryLoop, h0, h1])⟩
  · exact ⟨1, by omega, by omega,
      backup_after_query_ok env opts o b o0 1 hd hb hsink hh hc hr
        (by simp [queryLoop, h0])⟩

/-- Witness for the amended C3 at a concrete all-success run. -/
theorem backup_command_sequence_witness :
    ∃ k, 1 ≤ k ∧ k ≤ 3 ∧
      (BackupRun envAllOk optsSmall).1.map Prod.fst =
        Cmd.hold :: (List.replicate k Cmd.query ++ [Cmd.resume]) :=
  backup_command_sequence envAllOk optsSmall optsSmall sinkOk
    rfl rfl (fun _ => rfl) rfl rfl rfl

/-- Timeouts of the resume commands in a trace, in order. -/
def resumeTimeouts (tr : List (Cmd × Int)) : List Int :=
  (tr.filter (fun c => c.1 = Cmd.resume)).map Prod.snd

/-- Counterexample for C9 as stated: `Server.Backup` accepts options with a
CommandTimeout of ten minutes, and then the failure-path resume timeout
(five minutes) is not longer than the normal-path resume timeout. -/
theorem backup_resume_timeout_counterexample :
    resumeTimeouts (BackupRun envHoldFail optsBig).1 = [failureResumeTimeout] ∧
      resumeTimeouts (BackupRun envAllOk optsBig).1 = [10 * timeMinute] ∧
      ¬ failureResumeTimeout > 10 * timeMinute := by
  decide

/-- C9 amended: for every accepted options value whose defaulted
CommandTimeout is below five minutes (in particular the three-second
default), the failure-path recovery resume uses the fixed five-minute
timeout, which is longer than the CommandTimeout used by the resume on
the normal success path. -/
theorem backup_failure_resume_timeout (envA envB : BackupEnv)
    (opts o : BackupOptions) (b : List File → Option Err) (e out : String)
    (files : List File)
    (hd : defaultOptions opts = .ok o) (hb : o.Backupper = some b)
    (hct : o.CommandTimeout < failureResumeTimeout)
    (hhA : envA.holdErr = some e)
    (hhB : envB.holdErr = none) (hcB : envB.ctxCanceledDuringPause = false)
    (hqB : envB.queryResult 0 = .ok out)
    (hpB : parseSaveQuery out = (files, none))
    (hsB : b files = none) (hrB : envB.resumeErr = none) :
    resumeTimeouts (BackupRun envA opts).1 = [failureResumeTimeout] ∧
      resumeTimeouts (BackupRun envB opts).1 = [o.CommandTimeout] ∧
      o.CommandTimeout < failureResumeTimeout := by
  refine ⟨?_, ?_, hct⟩
  · simp [BackupRun, hd, hhA, deferredResume, resumeTimeouts]
  · have hq : queryLoop envB = (.ok out, 1) := by simp [queryLoop, hqB]
    simp [BackupRun, hd, hb, hhB, hcB, hq, hpB, hsB, hrB, deferredResume,
      resumeTimeouts, List.filter_append, filter_resume_replicate]

/-- Witness for the amended C9 at concrete runs with a 7 ns CommandTimeout. -/
theorem backup_failure_resume_timeout_witness :
    resumeTimeouts (BackupRun envHoldFail optsSmall).1 = [failureResumeTimeout] ∧
      resumeTimeouts (BackupRun envAllOk optsSmall).1 = [optsSmall.CommandTimeout] ∧
      optsSmall.CommandTimeout < failureResumeTimeout :=
  backup_failure_resume_timeout envHoldFail envAllOk optsSmall optsSmall sinkOk
    "hold timeout" "levelname.txt:5" [⟨"levelname.txt", 5⟩]
    rfl rfl (by decide) rfl rfl rfl rfl (by decide) rfl rfl

/- ## Claims about SendRawCommandWaitResponse -/

/-- Counterexample for C8 as stated: a call whose context is already
canceled (no messages delivered before cancellation) returns the
cancellation error, but the command has still been sent — the send
precedes the wait loop unconditionally. -/
theorem sendAwait_canceled_counterexample :
    ConsoleEvent.send "save hold" ∈
        (SendRawCommandWaitResponse true (fun _ => false) [] "save hold").1 ∧
      (SendRawCommandWaitResponse true (fun _ => false) [] "save hold").2 =
        .error ctxCanceledErr :=
  ⟨by decide, rfl⟩

/-- C8 amended: no subscription persists after a
`SendRawCommandWaitResponse` call — every call whose pattern compiles
subscribes, sends the command, and unsubscribes (then closes its channel)
in exactly that order, whatever the outcome; a call whose context is
already canceled returns the cancellation error, though the command is
still sent. -/
theorem sendAwait_unsubscribes (rmatch : String → Bool) (msgs : List String)
    (raw : String) :
    (SendRawCommandWaitResponse true rmatch msgs raw).1 =
      [ConsoleEvent.subscribe, ConsoleEvent.send raw,
        ConsoleEvent.unsubscribe, ConsoleEvent.closeChan] ∧
    (msgs = [] →
      (SendRawCommandWaitResponse true rmatch msgs raw).2 =
        .error ctxCanceledErr) := by
  constructor
  · rfl
  · intro h
    subst h
    rfl

/-- Witness for the amended C8 at a concrete already-canceled call. -/
theorem sendAwait_unsubscribes_witness :
    (SendRawCommandWaitResponse true (fun _ => false) [] "save resume").1 =
      [ConsoleEvent.subscribe, ConsoleEvent.send "save resume",
        ConsoleEvent.unsubscribe, ConsoleEvent.closeChan] ∧
    (SendRawCommandWaitResponse true (fun _ => false) [] "save resume").2 =
      .error ctxCanceledErr :=
  ⟨(sendAwait_unsubscribes (fun _ => false) [] "save resume").1,
   (sendAwait_unsubscribes (fun _ => false) [] "save resume").2 rfl⟩
